import Mathlib

/-!
Verification of the gryt-ci-agent job execution engine against its
natural-language specification.

The Python sources (`src/agent/executor.py`, `src/agent/crypto.py`) are
shallowly embedded: each helper of `DockerJobExecutor` becomes a Lean
function; external effects (filesystem, git, the Docker daemon, the system
clock, token decryption) are supplied as an explicit `World` of outcomes;
numbers are `Nat`/`Int`/`Rat` with the floating-point details of CPython
abstracted to exact arithmetic where noted.
-/

namespace GrytAgent

/-- Decimal digit character for a digit value below ten. -/
def digitChar (d : Nat) : Char :=
  match d with
  | 0 => '0' | 1 => '1' | 2 => '2' | 3 => '3' | 4 => '4'
  | 5 => '5' | 6 => '6' | 7 => '7' | 8 => '8' | _ => '9'

/-- Decimal rendering of a natural number, most significant digit first.
Stands in for CPython's decimal rendering of numbers (used by
`_create_workspace` in the `f"job-{job_id}-{timestamp}"` name and by
`json.dumps` for integer literals): an injective base-10 printout. -/
def natToChars (n : Nat) : List Char :=
  if _h : n < 10 then [digitChar n]
  else natToChars (n / 10) ++ [digitChar (n % 10)]
  termination_by n
  decreasing_by exact Nat.div_lt_self (by omega) (by omega)

/-- Accumulator-style numeric value of a digit list, exactly the scan a
left-to-right decimal parser performs. -/
def digitsValFrom (acc : Nat) (l : List Char) : Nat :=
  l.foldl (fun a c => 10 * a + (c.toNat - 48)) acc

/-- Numeric value of a digit list starting from an empty accumulator. -/
def digitsVal (l : List Char) : Nat := digitsValFrom 0 l

theorem digitsValFrom_append (acc : Nat) (l1 l2 : List Char) :
    digitsValFrom acc (l1 ++ l2) = digitsValFrom (digitsValFrom acc l1) l2 := by
  simp [digitsValFrom, List.foldl_append]

theorem digitChar_toNat {d : Nat} (h : d < 10) : (digitChar d).toNat = 48 + d := by
  interval_cases d <;> rfl

theorem digitChar_isDigit {d : Nat} (h : d < 10) : (digitChar d).isDigit = true := by
  interval_cases d <;> rfl

theorem natToChars_ne_nil (n : Nat) : natToChars n ≠ [] := by
  rw [natToChars]
  split <;> simp

theorem natToChars_all_digits (n : Nat) : (natToChars n).all Char.isDigit = true := by
  induction n using Nat.strong_induction_on with
  | _ n ih =>
    rw [natToChars]
    split
    · rename_i h
      simp [digitChar_isDigit h]
    · rename_i h
      have hlt : n / 10 < n := Nat.div_lt_self (by omega) (by omega)
      have := ih (n / 10) hlt
      simp_all [digitChar_isDigit (Nat.mod_lt n (by omega))]

theorem digitsValFrom_natToChars (n : Nat) :
    ∀ acc, digitsValFrom acc (natToChars n) =
      acc * 10 ^ (natToChars n).length + n := by
  induction n using Nat.strong_induction_on with
  | _ n ih =>
    intro acc
    rw [natToChars]
    split
    · rename_i h
      simp [digitsValFrom, digitChar_toNat h]
      ring
    · rename_i h
      have hlt : n / 10 < n := Nat.div_lt_self (by omega) (by omega)
      have hmod : n % 10 < 10 := Nat.mod_lt n (by omega)
      rw [digitsValFrom_append, ih (n / 10) hlt acc]
      simp only [digitsValFrom, List.foldl_cons, List.foldl_nil, digitChar_toNat hmod,
        List.length_append, List.length_cons, List.length_nil, Nat.add_zero, Nat.zero_add,
        Nat.add_sub_cancel_left, pow_succ]
      generalize (10:ℕ) ^ (natToChars (n / 10)).length = P
      have hcomm : acc * (P * 10) = 10 * (acc * P) := by ring
      have hd : 10 * (n / 10) + n % 10 = n := Nat.div_add_mod n 10
      linarith [hcomm, hd]

theorem digitsVal_natToChars (n : Nat) : digitsVal (natToChars n) = n := by
  have := digitsValFrom_natToChars n 0
  simpa [digitsVal] using this

theorem natToChars_injective : Function.Injective natToChars := by
  intro a b h
  have ha := digitsVal_natToChars a
  have hb := digitsVal_natToChars b
  rw [h] at ha
  omega

theorem natToChars_head_ne_zero {n : Nat} (hn : 0 < n) :
    ∃ c t, natToChars n = c :: t ∧ c ≠ '0' ∧ c.isDigit = true := by
  induction n using Nat.strong_induction_on with
  | _ n ih =>
    rw [natToChars]
    split
    · rename_i h
      refine ⟨digitChar n, [], rfl, ?_, digitChar_isDigit (by omega)⟩
      interval_cases n <;> simp_all <;> decide
    · rename_i h
      have hlt : n / 10 < n := Nat.div_lt_self (by omega) (by omega)
      have hpos : 0 < n / 10 := Nat.div_pos (by omega) (by omega)
      obtain ⟨c, t, hct, hc0, hcd⟩ := ih (n / 10) hlt hpos
      exact ⟨c, t ++ [digitChar (n % 10)], by rw [hct]; rfl, hc0, hcd⟩

/-!
## JSON model, for `_clean_json_output`

Modelled from the spec: `_clean_json_output` delegates to CPython's `json`
module, which is external to this repository; the spec treats it as parsing
a "well-formed structured (JSON-like) document" and re-serializing it "in a
compact canonical form" (`json.dumps(parsed, separators=(',', ':'))`).
The model covers null, booleans, integer numerals, strings with the short
escapes, arrays and objects.  Fractional and exponent numeric literals and
`\uXXXX` escapes are outside the model's parse domain, duplicate object
keys are kept in document order, and characters outside the escaped set
pass through verbatim in both directions.
-/

/-- Abstract syntax of a structured (JSON-like) document. -/
inductive Json where
  | null
  | bool (b : Bool)
  | num (n : Int)
  | str (s : String)
  | arr (elems : List Json)
  | obj (members : List (String × Json))

/-- Serialization of one string character, mirroring the escapes the
serializer emits inside double-quoted strings. -/
def escapeChar (c : Char) : List Char :=
  if c = '"' then ['\\', '"']
  else if c = '\\' then ['\\', '\\']
  else if c = '\n' then ['\\', 'n']
  else if c = '\t' then ['\\', 't']
  else if c = '\r' then ['\\', 'r']
  else if c = '\x08' then ['\\', 'b']
  else if c = '\x0c' then ['\\', 'f']
  else [c]

/-- Serialization of a string body (without the surrounding quotes). -/
def escapeChars : List Char → List Char
  | [] => []
  | c :: t => escapeChar c ++ escapeChars t

/-- Serialization of a boolean literal. -/
def boolChars : Bool → List Char
  | true => ['t', 'r', 'u', 'e']
  | false => ['f', 'a', 'l', 's', 'e']

mutual

/-- Compact serialization of a document: `json.dumps` with separators
`(',', ':')`, i.e. no whitespace anywhere. -/
def dumpChars : Json → List Char
  | .null => ['n', 'u', 'l', 'l']
  | .bool b => boolChars b
  | .num n => if n < 0 then '-' :: natToChars n.natAbs else natToChars n.natAbs
  | .str s => '"' :: (escapeChars s.data ++ ['"'])
  | .arr l => '[' :: (dumpElems l ++ [']'])
  | .obj m => '{' :: (dumpMembers m ++ ['}'])

/-- Comma-separated serialization of array elements. -/
def dumpElems : List Json → List Char
  | [] => []
  | [j] => dumpChars j
  | j :: jt :: t => dumpChars j ++ ',' :: dumpElems (jt :: t)

/-- Comma-separated serialization of object members, `key:value` each. -/
def dumpMembers : List (String × Json) → List Char
  | [] => []
  | [(k, v)] => '"' :: (escapeChars k.data ++ '"' :: ':' :: dumpChars v)
  | (k, v) :: kv :: t =>
      '"' :: (escapeChars k.data ++ '"' :: ':' :: dumpChars v) ++
        ',' :: dumpMembers (kv :: t)

end

mutual

/-- Parser fuel sufficient for a document: one unit per bracket level,
with sibling branches sharing fuel. -/
def jfuel : Json → Nat
  | .arr l => 1 + lfuel l
  | .obj m => 1 + mfuel m
  | _ => 1

/-- Parser fuel sufficient for an array-element tail. -/
def lfuel : List Json → Nat
  | [] => 1
  | j :: t => 1 + max (jfuel j) (lfuel t)

/-- Parser fuel sufficient for an object-member tail. -/
def mfuel : List (String × Json) → Nat
  | [] => 1
  | (_, v) :: t => 1 + max (jfuel v) (mfuel t)

end

/-- JSON inter-token whitespace, exactly the characters `json.loads`
skips between tokens. -/
def isJsonWs (c : Char) : Bool := c = ' ' || c = '\t' || c = '\n' || c = '\r'

/-- Drop leading inter-token whitespace. -/
def skipWs (l : List Char) : List Char := l.dropWhile isJsonWs

/-- Whitespace in the sense of Python's `str.strip` (the ASCII cases). -/
def isPyWs (c : Char) : Bool := isJsonWs c || c = '\x0b' || c = '\x0c'

/-- Python's `output.strip()` on a character list. -/
def stripChars (l : List Char) : List Char :=
  ((l.dropWhile isPyWs).reverse.dropWhile isPyWs).reverse

/-- Decoding of one backslash escape inside a string literal. -/
def unescapeChar (c : Char) : Option Char :=
  if c = '"' then some '"'
  else if c = '\\' then some '\\'
  else if c = '/' then some '/'
  else if c = 'n' then some '\n'
  else if c = 't' then some '\t'
  else if c = 'r' then some '\r'
  else if c = 'b' then some '\x08'
  else if c = 'f' then some '\x0c'
  else none

/-- Parse a string body up to and including the closing quote, returning
the decoded content and the remainder after the quote. -/
def parseStringBody : List Char → Option (List Char × List Char)
  | [] => none
  | c :: rest =>
    if c = '"' then some ([], rest)
    else if c = '\\' then
      match rest with
      | [] => none
      | e :: rest2 =>
        match unescapeChar e with
        | none => none
        | some u =>
          match parseStringBody rest2 with
          | none => none
          | some (s, r) => some (u :: s, r)
    else
      match parseStringBody rest with
      | none => none
      | some (s, r) => some (c :: s, r)

/-- Match an exact literal character sequence, returning the remainder. -/
def stripLit : List Char → List Char → Option (List Char)
  | [], l => some l
  | _ :: _, [] => none
  | p :: pt, c :: ct => if c = p then stripLit pt ct else none

/-- Parse an unsigned JSON integer literal: `0`, or a nonzero digit
followed by further digits, greedily. -/
def parseDigits : List Char → Option (Nat × List Char)
  | [] => none
  | c :: rest =>
    if c = '0' then some (0, rest)
    else if c.isDigit then
      some (digitsVal ((c :: rest).takeWhile Char.isDigit),
        (c :: rest).dropWhile Char.isDigit)
    else none

mutual

/-- Fueled recursive-descent parser for one document value, skipping
leading whitespace; returns the value and the unconsumed remainder. -/
def parseValue : Nat → List Char → Option (Json × List Char)
  | 0, _ => none
  | fuel + 1, l =>
    match skipWs l with
    | [] => none
    | c :: rest =>
      if c = 'n' then (stripLit ['u', 'l', 'l'] rest).map fun r => (Json.null, r)
      else if c = 't' then (stripLit ['r', 'u', 'e'] rest).map fun r => (Json.bool true, r)
      else if c = 'f' then (stripLit ['a', 'l', 's', 'e'] rest).map fun r => (Json.bool false, r)
      else if c = '"' then (parseStringBody rest).map fun sr => (Json.str ⟨sr.1⟩, sr.2)
      else if c = '[' then
        match skipWs rest with
        | [] => none
        | c2 :: r =>
          if c2 = ']' then some (Json.arr [], r)
          else (parseElems fuel rest).map fun er => (Json.arr er.1, er.2)
      else if c = '{' then
        match skipWs rest with
        | [] => none
        | c2 :: r =>
          if c2 = '}' then some (Json.obj [], r)
          else (parseMembers fuel rest).map fun mr => (Json.obj mr.1, mr.2)
      else if c = '-' then (parseDigits rest).map fun nr => (Json.num (-(nr.1 : Int)), nr.2)
      else if c.isDigit then (parseDigits (c :: rest)).map fun nr => (Json.num (nr.1 : Int), nr.2)
      else none

/-- Fueled parser for one or more array elements followed by `]`. -/
def parseElems : Nat → List Char → Option (List Json × List Char)
  | 0, _ => none
  | fuel + 1, l =>
    match parseValue fuel l with
    | none => none
    | some (j, r) =>
      match skipWs r with
      | [] => none
      | c :: r2 =>
        if c = ',' then (parseElems fuel r2).map fun tr => (j :: tr.1, tr.2)
        else if c = ']' then some ([j], r2)
        else none

/-- Fueled parser for one or more `"key":value` members followed by `}`. -/
def parseMembers : Nat → List Char → Option (List (String × Json) × List Char)
  | 0, _ => none
  | fuel + 1, l =>
    match skipWs l with
    | [] => none
    | c :: rest =>
      if c = '"' then
        match parseStringBody rest with
        | none => none
        | some (k, r) =>
          match skipWs r with
          | [] => none
          | c2 :: r2 =>
            if c2 = ':' then
              match parseValue fuel r2 with
              | none => none
              | some (v, r3) =>
                match skipWs r3 with
                | [] => none
                | c3 :: r4 =>
                  if c3 = ',' then
                    (parseMembers fuel r4).map fun tr => ((⟨k⟩, v) :: tr.1, tr.2)
                  else if c3 = '}' then some ([(⟨k⟩, v)], r4)
                  else none
            else none
      else none

end

/-- Parse a complete document: one value with nothing but whitespace
after it, mirroring `json.loads` on a whole input. -/
def parseDoc (l : List Char) : Option Json :=
  match parseValue (l.length + 1) l with
  | none => none
  | some (j, rest) => if skipWs rest = [] then some j else none

/-- Model of `_clean_json_output` (`executor.py` lines 27-38): strip the
captured text, try to parse it as a single document, and on success return
the compact re-serialization; any parse failure returns the original text
unchanged. -/
def cleanJsonOutput (output : String) : String :=
  match parseDoc (stripChars output.data) with
  | some j => ⟨dumpChars j⟩
  | none => output

/-- Remainders that cannot be mistaken for more digits of a numeral. -/
def headNotDigit : List Char → Bool
  | [] => true
  | c :: _ => !c.isDigit

theorem skipWs_cons {c : Char} (h : isJsonWs c = false) (l : List Char) :
    skipWs (c :: l) = c :: l := by
  simp [skipWs, List.dropWhile_cons, h]

theorem stripLit_append (pat rest : List Char) : stripLit pat (pat ++ rest) = some rest := by
  induction pat with
  | nil => rfl
  | cons p pt ih => simp [stripLit, ih]

theorem digit_facts {c : Char} (h : c.isDigit = true) :
    c ≠ 'n' ∧ c ≠ 't' ∧ c ≠ 'f' ∧ c ≠ '"' ∧ c ≠ '[' ∧ c ≠ '{' ∧ c ≠ '-' ∧
      c ≠ ']' ∧ c ≠ '}' ∧ c ≠ ',' ∧ c ≠ ':' ∧ isJsonWs c = false ∧ isPyWs c = false := by
  have hws : isJsonWs c = false := by
    cases hw : isJsonWs c with
    | false => rfl
    | true =>
      exfalso
      simp only [isJsonWs, Bool.or_eq_true, decide_eq_true_eq] at hw
      rcases hw with ((rfl | rfl) | rfl) | rfl <;> exact absurd h (by decide)
  have hpy : isPyWs c = false := by
    cases hw : isPyWs c with
    | false => rfl
    | true =>
      exfalso
      simp only [isPyWs, isJsonWs, Bool.or_eq_true, decide_eq_true_eq] at hw
      rcases hw with ((((rfl | rfl) | rfl) | rfl) | rfl) | rfl <;> exact absurd h (by decide)
  refine ⟨?_, ?_, ?_, ?_, ?_, ?_, ?_, ?_, ?_, ?_, ?_, hws, hpy⟩ <;>
    (rintro rfl; exact absurd h (by decide))

theorem natToChars_head (m : Nat) :
    ∃ c cs, natToChars m = c :: cs ∧ c.isDigit = true := by
  obtain ⟨c, cs, hc⟩ := List.exists_cons_of_ne_nil (natToChars_ne_nil m)
  have hall := natToChars_all_digits m
  rw [hc] at hall
  simp [List.all_cons] at hall
  exact ⟨c, cs, hc, hall.1⟩

theorem natToChars_last (m : Nat) :
    ∃ c cs, natToChars m = cs ++ [c] ∧ c.isDigit = true := by
  rw [natToChars]
  split
  · rename_i h
    exact ⟨digitChar m, [], rfl, digitChar_isDigit h⟩
  · rename_i h
    exact ⟨digitChar (m % 10), natToChars (m / 10), rfl,
      digitChar_isDigit (Nat.mod_lt m (by omega))⟩

theorem takeWhile_append_of_all {p : Char → Bool} {l1 : List Char} (l2 : List Char)
    (h : ∀ x ∈ l1, p x = true) : (l1 ++ l2).takeWhile p = l1 ++ l2.takeWhile p := by
  induction l1 with
  | nil => simp
  | cons c t ih =>
    have hc : p c = true := h c (by simp)
    have ht : ∀ x ∈ t, p x = true := fun x hx => h x (by simp [hx])
    simp [List.takeWhile_cons, hc, ih ht]

theorem dropWhile_append_of_all {p : Char → Bool} {l1 : List Char} (l2 : List Char)
    (h : ∀ x ∈ l1, p x = true) : (l1 ++ l2).dropWhile p = l2.dropWhile p := by
  induction l1 with
  | nil => simp
  | cons c t ih =>
    have hc : p c = true := h c (by simp)
    have ht : ∀ x ∈ t, p x = true := fun x hx => h x (by simp [hx])
    simp [List.dropWhile_cons, hc, ih ht]

theorem takeWhile_head_not {rest : List Char} (h : headNotDigit rest = true) :
    rest.takeWhile Char.isDigit = [] ∧ rest.dropWhile Char.isDigit = rest := by
  cases rest with
  | nil => simp
  | cons c t =>
    simp [headNotDigit] at h
    simp [List.takeWhile_cons, List.dropWhile_cons, h]

theorem parseDigits_natToChars (n : Nat) {rest : List Char}
    (h : headNotDigit rest = true) :
    parseDigits (natToChars n ++ rest) = some (n, rest) := by
  obtain ⟨htake, hdrop⟩ := takeWhile_head_not h
  by_cases h0 : n = 0
  · subst h0
    rw [show natToChars 0 = ['0'] from by rw [natToChars]; rfl]
    simp [parseDigits]
  · obtain ⟨c, cs, hc, hcd⟩ := natToChars_head n
    have hne0 : c ≠ '0' := by
      obtain ⟨c', t', hc', h0', _⟩ := natToChars_head_ne_zero (Nat.pos_of_ne_zero h0)
      rw [hc'] at hc
      cases hc
      exact h0'
    have hall := List.all_eq_true.mp (natToChars_all_digits n)
    rw [hc]
    simp only [List.cons_append, parseDigits, if_neg hne0, hcd, if_pos rfl, ite_true]
    rw [← List.cons_append, ← hc, takeWhile_append_of_all rest hall,
      dropWhile_append_of_all rest hall, htake, hdrop, List.append_nil,
      digitsVal_natToChars n]

theorem parseStringBody_quote (rest : List Char) :
    parseStringBody ('"' :: rest) = some ([], rest) := by
  rw [parseStringBody.eq_def]
  simp

theorem parseStringBody_esc {e u : Char} {rest : List Char} {s r : List Char}
    (he : unescapeChar e = some u) (hrec : parseStringBody rest = some (s, r)) :
    parseStringBody ('\\' :: e :: rest) = some (u :: s, r) := by
  rw [parseStringBody.eq_def]
  simp [he, hrec]

theorem parseStringBody_other {c : Char} {rest : List Char} {s r : List Char}
    (h1 : c ≠ '"') (h2 : c ≠ '\\') (hrec : parseStringBody rest = some (s, r)) :
    parseStringBody (c :: rest) = some (c :: s, r) := by
  rw [parseStringBody.eq_def]
  simp [h1, h2, hrec]

theorem parseStringBody_escape (s : List Char) :
    ∀ rest, parseStringBody (escapeChars s ++ '"' :: rest) = some (s, rest) := by
  induction s with
  | nil =>
    intro rest
    simpa [escapeChars] using parseStringBody_quote rest
  | cons c t ih =>
    intro rest
    show parseStringBody ((escapeChar c ++ escapeChars t) ++ '"' :: rest) = _
    rw [List.append_assoc]
    unfold escapeChar
    split_ifs with h1 h2 h3 h4 h5 h6 h7
    · subst h1; exact parseStringBody_esc (by decide) (ih rest)
    · subst h2; exact parseStringBody_esc (by decide) (ih rest)
    · subst h3; exact parseStringBody_esc (by decide) (ih rest)
    · subst h4; exact parseStringBody_esc (by decide) (ih rest)
    · subst h5; exact parseStringBody_esc (by decide) (ih rest)
    · subst h6; exact parseStringBody_esc (by decide) (ih rest)
    · subst h7; exact parseStringBody_esc (by decide) (ih rest)
    · exact parseStringBody_other h1 h2 (ih rest)

theorem dump_head (j : Json) :
    ∃ c cs, dumpChars j = c :: cs ∧ isJsonWs c = false ∧ isPyWs c = false ∧
      c ≠ ']' ∧ c ≠ '}' := by
  cases j with
  | null =>
    exact ⟨'n', ['u', 'l', 'l'], by simp [dumpChars], by decide, by decide, by decide, by decide⟩
  | bool b =>
    cases b
    · exact ⟨'f', ['a', 'l', 's', 'e'], by simp [dumpChars, boolChars],
        by decide, by decide, by decide, by decide⟩
    · exact ⟨'t', ['r', 'u', 'e'], by simp [dumpChars, boolChars],
        by decide, by decide, by decide, by decide⟩
  | num n =>
    by_cases hn : n < 0
    · exact ⟨'-', natToChars n.natAbs, by simp [dumpChars, if_pos hn],
        by decide, by decide, by decide, by decide⟩
    · obtain ⟨c, cs, hc, hcd⟩ := natToChars_head n.natAbs
      obtain ⟨_, _, _, _, _, _, _, h9, h10, _, _, h12, h13⟩ := digit_facts hcd
      exact ⟨c, cs, by simp [dumpChars, if_neg hn, hc], h12, h13, h9, h10⟩
  | str s =>
    exact ⟨'"', escapeChars s.data ++ ['"'], by simp [dumpChars],
      by decide, by decide, by decide, by decide⟩
  | arr l =>
    exact ⟨'[', dumpElems l ++ [']'], by simp [dumpChars],
      by decide, by decide, by decide, by decide⟩
  | obj m =>
    exact ⟨'{', dumpMembers m ++ ['}'], by simp [dumpChars],
      by decide, by decide, by decide, by decide⟩

theorem dump_last (j : Json) :
    ∃ c cs, dumpChars j = cs ++ [c] ∧ isPyWs c = false := by
  cases j with
  | null => exact ⟨'l', ['n', 'u', 'l'], by simp [dumpChars], by decide⟩
  | bool b =>
    cases b
    · exact ⟨'e', ['f', 'a', 'l', 's'], by simp [dumpChars, boolChars], by decide⟩
    · exact ⟨'e', ['t', 'r', 'u'], by simp [dumpChars, boolChars], by decide⟩
  | num n =>
    obtain ⟨c, cs, hc, hcd⟩ := natToChars_last n.natAbs
    obtain ⟨_, _, _, _, _, _, _, _, _, _, _, _, h13⟩ := digit_facts hcd
    by_cases hn : n < 0
    · exact ⟨c, '-' :: cs, by simp [dumpChars, if_pos hn, hc], h13⟩
    · exact ⟨c, cs, by simp [dumpChars, if_neg hn, hc], h13⟩
  | str s =>
    exact ⟨'"', '"' :: escapeChars s.data, by simp [dumpChars], by decide⟩
  | arr l =>
    exact ⟨']', '[' :: dumpElems l, by simp [dumpChars], by decide⟩
  | obj m =>
    exact ⟨'}', '{' :: dumpMembers m, by simp [dumpChars], by decide⟩

theorem dumpElems_cons_ex (j : Json) (t : List Json) :
    ∃ X, dumpElems (j :: t) = dumpChars j ++ X := by
  cases t with
  | nil => exact ⟨[], by simp [dumpElems]⟩
  | cons jt tt => exact ⟨',' :: dumpElems (jt :: tt), by simp [dumpElems]⟩

theorem dumpMembers_head_ex (k : String) (v : Json) (t : List (String × Json)) :
    ∃ X, dumpMembers ((k, v) :: t) = '"' :: X := by
  cases t with
  | nil => exact ⟨escapeChars k.data ++ '"' :: ':' :: dumpChars v, by simp [dumpMembers]⟩
  | cons kv tt =>
    exact ⟨(escapeChars k.data ++ '"' :: ':' :: dumpChars v) ++ ',' :: dumpMembers (kv :: tt),
      by simp [dumpMembers]⟩

theorem jfuel_pos (j : Json) : 0 < jfuel j := by
  cases j <;> simp [jfuel]

theorem lfuel_pos (l : List Json) : 0 < lfuel l := by
  cases l <;> simp [lfuel]

theorem mfuel_pos (m : List (String × Json)) : 0 < mfuel m := by
  cases m with
  | nil => simp [mfuel]
  | cons kv t => obtain ⟨k, v⟩ := kv; simp [mfuel]

theorem parse_dump_all : ∀ fuel : Nat,
    (∀ j rest, jfuel j ≤ fuel → headNotDigit rest = true →
      parseValue fuel (dumpChars j ++ rest) = some (j, rest)) ∧
    (∀ l rest, l ≠ [] → lfuel l ≤ fuel →
      parseElems fuel (dumpElems l ++ ']' :: rest) = some (l, rest)) ∧
    (∀ m rest, m ≠ [] → mfuel m ≤ fuel →
      parseMembers fuel (dumpMembers m ++ '}' :: rest) = some (m, rest)) := by
  intro fuel
  induction fuel with
  | zero =>
    refine ⟨fun j rest hf _ => absurd hf ?_, fun l rest _ hf => absurd hf ?_,
      fun m rest _ hf => absurd hf ?_⟩
    · have := jfuel_pos j; omega
    · have := lfuel_pos l; omega
    · have := mfuel_pos m; omega
  | succ fuel ih =>
    obtain ⟨ihv, ihe, ihm⟩ := ih
    refine ⟨?_, ?_, ?_⟩
    · intro j rest hf hrest
      cases j with
      | null => simp [dumpChars, parseValue, skipWs, isJsonWs, stripLit]
      | bool b => cases b <;> simp [dumpChars, boolChars, parseValue, skipWs, isJsonWs, stripLit]
      | num n =>
        have hd := parseDigits_natToChars n.natAbs hrest
        by_cases hn : n < 0
        · have hval : -(n.natAbs : Int) = n := by omega
          have hval2 : -|n| = n := by rw [abs_of_neg hn]; ring
          simp [dumpChars, if_pos hn, parseValue, skipWs, isJsonWs, hd, hval, hval2]
        · obtain ⟨c, cs, hc, hcd⟩ := natToChars_head n.natAbs
          obtain ⟨h1, h2, h3, h4, h5, h6, h7, _, _, _, _, h12, _⟩ := digit_facts hcd
          have hval : ((n.natAbs : Nat) : Int) = n := by omega
          have step1 : dumpChars (Json.num n) ++ rest = c :: (cs ++ rest) := by
            simp [dumpChars, if_neg hn, hc]
          rw [step1]
          have hskip : skipWs (c :: (cs ++ rest)) = c :: (cs ++ rest) := skipWs_cons h12 _
          simp only [parseValue, hskip]
          simp only [if_neg h1, if_neg h2, if_neg h3, if_neg h4, if_neg h5, if_neg h6,
            if_neg h7, hcd, if_pos rfl, ite_true]
          rw [← List.cons_append, ← hc, hd]
          simp [hval]
      | str s =>
        have hb := parseStringBody_escape s.data rest
        simp [dumpChars, parseValue, skipWs, isJsonWs, hb]
      | arr l =>
        cases l with
        | nil => simp [dumpChars, dumpElems, parseValue, skipWs, isJsonWs]
        | cons j1 t =>
          have hbound : lfuel (j1 :: t) ≤ fuel := by
            simp only [jfuel] at hf; omega
          have he := ihe (j1 :: t) rest (List.cons_ne_nil j1 t) hbound
          obtain ⟨c2, cs2, hc2, hws2, _, hne2, _⟩ := dump_head j1
          obtain ⟨X, hX⟩ := dumpElems_cons_ex j1 t
          have hinput : dumpChars (Json.arr (j1 :: t)) ++ rest =
              '[' :: (dumpElems (j1 :: t) ++ ']' :: rest) := by simp [dumpChars]
          have hshape : dumpElems (j1 :: t) ++ ']' :: rest =
              c2 :: (cs2 ++ (X ++ ']' :: rest)) := by
            rw [hX, hc2]; simp
          have hskip2 : skipWs (dumpElems (j1 :: t) ++ ']' :: rest) =
              dumpElems (j1 :: t) ++ ']' :: rest := by
            rw [hshape]; exact skipWs_cons hws2 _
          rw [hinput]
          simp only [parseValue]
          rw [skipWs_cons (by decide)]
          simp only [hskip2, hshape, hne2]
          rw [← hshape]
          simp [hne2, he]
          rw [hskip2, hshape]
          simp [hne2]
      | obj m =>
        cases m with
        | nil => simp [dumpChars, dumpMembers, parseValue, skipWs, isJsonWs]
        | cons kv t =>
          obtain ⟨k, v⟩ := kv
          have hbound : mfuel ((k, v) :: t) ≤ fuel := by
            simp only [jfuel] at hf; omega
          have hm := ihm ((k, v) :: t) rest (List.cons_ne_nil (k, v) t) hbound
          obtain ⟨X, hX⟩ := dumpMembers_head_ex k v t
          have hinput : dumpChars (Json.obj ((k, v) :: t)) ++ rest =
              '{' :: (dumpMembers ((k, v) :: t) ++ '}' :: rest) := by simp [dumpChars]
          have hshape : dumpMembers ((k, v) :: t) ++ '}' :: rest =
              '"' :: (X ++ '}' :: rest) := by
            rw [hX]; simp
          have hskip2 : skipWs (dumpMembers ((k, v) :: t) ++ '}' :: rest) =
              dumpMembers ((k, v) :: t) ++ '}' :: rest := by
            rw [hshape]; exact skipWs_cons (by decide) _
          rw [hinput]
          simp only [parseValue]
          rw [skipWs_cons (by decide)]
          simp only [hskip2, hshape]
          rw [← hshape]
          simp [hm]
          rw [hskip2, hshape]
          simp
    · intro l rest hne hf
      cases l with
      | nil => exact absurd rfl hne
      | cons j t =>
        have hmaxl := le_max_left (jfuel j) (lfuel t)
        have hmaxr := le_max_right (jfuel j) (lfuel t)
        have hf' : 1 + max (jfuel j) (lfuel t) ≤ fuel + 1 := by rw [lfuel] at hf; exact hf
        have hfj : jfuel j ≤ fuel := by omega
        cases t with
        | nil =>
          have hv := ihv j (']' :: rest) hfj rfl
          rw [show dumpElems [j] = dumpChars j from by simp [dumpElems]]
          simp only [parseElems, hv]
          rw [skipWs_cons (by decide)]
          simp
        | cons j2 t2 =>
          have hft : lfuel (j2 :: t2) ≤ fuel := by omega
          have hv := ihv j (',' :: (dumpElems (j2 :: t2) ++ ']' :: rest)) hfj rfl
          have he := ihe (j2 :: t2) rest (List.cons_ne_nil j2 t2) hft
          have hsh : dumpElems (j :: j2 :: t2) ++ ']' :: rest =
              dumpChars j ++ ',' :: (dumpElems (j2 :: t2) ++ ']' :: rest) := by
            simp [dumpElems]
          rw [hsh]
          simp only [parseElems, hv]
          rw [skipWs_cons (by decide)]
          simp [he]
    · intro m rest hne hf
      cases m with
      | nil => exact absurd rfl hne
      | cons kv t =>
        obtain ⟨k, v⟩ := kv
        have hmaxl := le_max_left (jfuel v) (mfuel t)
        have hmaxr := le_max_right (jfuel v) (mfuel t)
        have hf' : 1 + max (jfuel v) (mfuel t) ≤ fuel + 1 := by rw [mfuel] at hf; exact hf
        have hfv : jfuel v ≤ fuel := by omega
        cases t with
        | nil =>
          have hv := ihv v ('}' :: rest) hfv rfl
          have hsh : dumpMembers [(k, v)] ++ '}' :: rest =
              '"' :: (escapeChars k.data ++ '"' :: (':' :: (dumpChars v ++ '}' :: rest))) := by
            simp [dumpMembers]
          rw [hsh]
          simp only [parseMembers]
          rw [skipWs_cons (by decide)]
          have hsb := parseStringBody_escape k.data (':' :: (dumpChars v ++ '}' :: rest))
          simp only [if_pos rfl, ite_true, hsb]
          rw [skipWs_cons (by decide)]
          simp only [if_pos rfl, ite_true, hv]
          rw [skipWs_cons (by decide)]
          simp
        | cons kv2 t2 =>
          have hft : mfuel (kv2 :: t2) ≤ fuel := by omega
          have hv := ihv v (',' :: (dumpMembers (kv2 :: t2) ++ '}' :: rest)) hfv rfl
          have hm := ihm (kv2 :: t2) rest (List.cons_ne_nil kv2 t2) hft
          have hsh : dumpMembers ((k, v) :: kv2 :: t2) ++ '}' :: rest =
              '"' :: (escapeChars k.data ++ '"' ::
                (':' :: (dumpChars v ++ ',' :: (dumpMembers (kv2 :: t2) ++ '}' :: rest)))) := by
            simp [dumpMembers]
          rw [hsh]
          simp only [parseMembers]
          rw [skipWs_cons (by decide)]
          have hsb := parseStringBody_escape k.data
            (':' :: (dumpChars v ++ ',' :: (dumpMembers (kv2 :: t2) ++ '}' :: rest)))
          simp only [if_pos rfl, ite_true, hsb]
          rw [skipWs_cons (by decide)]
          simp only [if_pos rfl, ite_true, hv]
          rw [skipWs_cons (by decide)]
          simp [hm]

theorem stripChars_dump (j : Json) : stripChars (dumpChars j) = dumpChars j := by
  obtain ⟨c, cs, hc, _, hcp, _, _⟩ := dump_head j
  obtain ⟨d, ds, hd, hdp⟩ := dump_last j
  have h1 : (dumpChars j).dropWhile isPyWs = dumpChars j := by
    rw [hc]; simp [List.dropWhile_cons, hcp]
  have h2 : (dumpChars j).reverse.dropWhile isPyWs = (dumpChars j).reverse := by
    rw [hd]; simp [List.dropWhile_cons, hdp]
  simp [stripChars, h1, h2]

theorem dump_len_pos (j : Json) : 0 < (dumpChars j).length := by
  obtain ⟨c, cs, hc, _, _, _, _⟩ := dump_head j
  rw [hc]
  simp

theorem fuel_le_bound : ∀ N : Nat,
    (∀ j : Json, sizeOf j ≤ N → jfuel j ≤ (dumpChars j).length) ∧
    (∀ l : List Json, sizeOf l ≤ N → lfuel l ≤ 1 + (dumpElems l).length) ∧
    (∀ m : List (String × Json), sizeOf m ≤ N → mfuel m ≤ 1 + (dumpMembers m).length) := by
  intro N
  induction N using Nat.strong_induction_on with
  | _ N ih =>
    refine ⟨?_, ?_, ?_⟩
    · intro j hsz
      cases j with
      | null => simp [jfuel, dumpChars]
      | bool b => cases b <;> simp [jfuel, dumpChars, boolChars]
      | num n =>
        have hp := dump_len_pos (Json.num n)
        rw [jfuel]
        · omega
        · simp
        · simp
      | str s =>
        have hp := dump_len_pos (Json.str s)
        rw [jfuel]
        · omega
        · simp
        · simp
      | arr l =>
        have hsz1 : sizeOf (Json.arr l) = 1 + sizeOf l := by simp
        have hlt : sizeOf l < N := by omega
        have hl := (ih (sizeOf l) hlt).2.1 l le_rfl
        rw [jfuel, show dumpChars (Json.arr l) = '[' :: (dumpElems l ++ [']']) from
          by simp [dumpChars]]
        simp [List.length_append]
        omega
      | obj m =>
        have hsz1 : sizeOf (Json.obj m) = 1 + sizeOf m := by simp
        have hlt : sizeOf m < N := by omega
        have hm := (ih (sizeOf m) hlt).2.2 m le_rfl
        rw [jfuel, show dumpChars (Json.obj m) = '{' :: (dumpMembers m ++ ['}']) from
          by simp [dumpChars]]
        simp [List.length_append]
        omega
    · intro l hsz
      cases l with
      | nil => simp [lfuel, dumpElems]
      | cons j t =>
        have hsz1 : sizeOf (j :: t) = 1 + sizeOf j + sizeOf t := by simp
        have hjlt : sizeOf j < N := by omega
        have htlt : sizeOf t < N := by omega
        have hj := (ih (sizeOf j) hjlt).1 j le_rfl
        have hp := dump_len_pos j
        cases t with
        | nil =>
          have h1 : lfuel ([] : List Json) = 1 := by rw [lfuel]
          have hmax : max (jfuel j) (lfuel ([] : List Json)) ≤ (dumpChars j).length := by
            rw [h1]; exact max_le hj hp
          rw [lfuel, show dumpElems [j] = dumpChars j from by simp [dumpElems]]
          omega
        | cons j2 t2 =>
          have ht := (ih (sizeOf (j2 :: t2)) htlt).2.1 (j2 :: t2) le_rfl
          have hmax : max (jfuel j) (lfuel (j2 :: t2)) ≤
              (dumpChars j).length + 1 + (dumpElems (j2 :: t2)).length :=
            max_le (by omega) (by omega)
          rw [lfuel, show dumpElems (j :: j2 :: t2) =
            dumpChars j ++ ',' :: dumpElems (j2 :: t2) from by simp [dumpElems]]
          simp [List.length_append]
          omega
    · intro m hsz
      cases m with
      | nil =>
        have h1 : mfuel ([] : List (String × Json)) = 1 := by rw [mfuel]
        simp [h1, dumpMembers]
      | cons kv t =>
        obtain ⟨k, v⟩ := kv
        have hsz1 : sizeOf ((k, v) :: t) = 1 + (1 + sizeOf k + sizeOf v) + sizeOf t := by
          simp
        have hvlt : sizeOf v < N := by omega
        have htlt : sizeOf t < N := by omega
        have hv := (ih (sizeOf v) hvlt).1 v le_rfl
        have hp := dump_len_pos v
        cases t with
        | nil =>
          have h1 : mfuel ([] : List (String × Json)) = 1 := by rw [mfuel]
          have hmax : max (jfuel v) (mfuel ([] : List (String × Json))) ≤
              (dumpChars v).length := by
            rw [h1]; exact max_le hv hp
          rw [mfuel, show dumpMembers [(k, v)] =
            '"' :: (escapeChars k.data ++ '"' :: ':' :: dumpChars v) from by simp [dumpMembers]]
          simp [List.length_append]
          omega
        | cons kv2 t2 =>
          have ht := (ih (sizeOf (kv2 :: t2)) htlt).2.2 (kv2 :: t2) le_rfl
          have hmax : max (jfuel v) (mfuel (kv2 :: t2)) ≤
              (dumpChars v).length + 1 + (dumpMembers (kv2 :: t2)).length :=
            max_le (by omega) (by omega)
          rw [mfuel, show dumpMembers ((k, v) :: kv2 :: t2) =
            '"' :: (escapeChars k.data ++ '"' :: ':' :: dumpChars v) ++
              ',' :: dumpMembers (kv2 :: t2) from by simp [dumpMembers]]
          simp [List.length_append]
          omega

theorem parseDoc_dump (j : Json) : parseDoc (dumpChars j) = some j := by
  have hfu : jfuel j ≤ (dumpChars j).length + 1 :=
    le_trans ((fuel_le_bound (sizeOf j)).1 j le_rfl) (by omega)
  have h := (parse_dump_all ((dumpChars j).length + 1)).1 j [] hfu rfl
  rw [List.append_nil] at h
  simp [parseDoc, h, skipWs]

theorem cleanJsonOutput_dump (j : Json) :
    cleanJsonOutput ⟨dumpChars j⟩ = ⟨dumpChars j⟩ := by
  have h1 : stripChars (String.data ⟨dumpChars j⟩) = dumpChars j := stripChars_dump j
  simp [cleanJsonOutput, h1, parseDoc_dump j]

/-!
## Executor model

Shallow embedding of `DockerJobExecutor` (`src/agent/executor.py`).
External effects are supplied by a `World` oracle: each field records the
outcome the corresponding external call site (filesystem, git, token
decryption, Docker daemon, clock) would produce.  Clock readings are
abstract `Int` ticks (ISO-8601 formatting of `datetime` values is out of
scope); the per-job timestamps in directory names are abstract `Nat` clock
readings rendered in decimal, standing in for CPython's injective float
repr of `datetime.utcnow().timestamp()`.
-/

/-- Raw result dictionary built by `_run_in_container`. -/
structure RawResult where
  success : Bool
  exitCode : Int
  stdout : String
  stderr : String
  deriving DecidableEq

/-- Result dictionary returned by `execute_job` (duration plus the
start/end timestamps added around the raw result, or the synthetic
failure shape built in the `except` handler). -/
structure JobResult where
  success : Bool
  exitCode : Int
  stdout : String
  stderr : String
  durationSeconds : Int
  startedAt : Int
  completedAt : Int
  error : Option String
  deriving DecidableEq

/-- Outcome of one `Repo.clone_from` call as observed by
`_clone_repository`'s `try` block. -/
inductive GitOutcome where
  | ok
  | gitCommandError (msg : String)
  | otherError (msg : String)
  deriving DecidableEq

/-- Outcome of the `containers.run` call: clean exit with captured output,
nonzero exit reported as `ContainerError` with the captured stderr payload
(`none` models `e.stderr` being `None` or empty bytes), or a runtime-level
`DockerException`. -/
inductive RunOutcome where
  | ok (output : String)
  | containerError (exitStatus : Int) (stderrPayload : Option String)
  | dockerError (msg : String)
  deriving DecidableEq

/-- Oracle of external outcomes for one `execute_job` invocation. -/
structure World where
  createWs : Except String Unit
  decryptTok : Except String String
  cloneResult : String → Nat → GitOutcome
  repoValid : Bool
  writeResult : Except String Unit
  imagePresent : Bool
  pullResult : Except String Unit
  runResult : RunOutcome
  cleanupResult : Except String Unit
  startTime : Int
  endTime : Int

/-- Model of the single job-domain exception class `JobExecutionError`. -/
structure JobExecutionError where
  msg : String
  deriving DecidableEq

/-- Directory name built by `_create_workspace` (line 217):
`workspace_dir / f"job-{job_id}-{timestamp}"`. -/
def workspaceName (workspaceDir : String) (jobId : Nat) (timestamp : Nat) : String :=
  workspaceDir ++ "/job-" ++ ⟨natToChars jobId⟩ ++ "-" ++ ⟨natToChars timestamp⟩

/-- CPython `str.replace` of every occurrence of `"https://"` by
`"https://" ++ token ++ "@"`, left-to-right and non-overlapping. -/
def replaceHttps (token : String) : List Char → List Char
  | [] => []
  | c :: rest =>
    if ['h', 't', 't', 'p', 's', ':', '/', '/'].isPrefixOf (c :: rest) then
      ('h' :: 't' :: 't' :: 'p' :: 's' :: ':' :: '/' :: '/' :: token.data) ++
        '@' :: replaceHttps token (rest.drop 7)
    else c :: replaceHttps token rest
  termination_by l => l.length
  decreasing_by
  all_goals (simp [List.length_drop, List.length_cons]; try omega)

/-- The `git_url.startswith("https://")` scheme test, on the character
content of the URL. -/
def startsWithHttps (url : String) : Bool :=
  ['h', 't', 't', 'p', 's', ':', '/', '/'].isPrefixOf url.data

/-- URL actually passed to `clone_from` (`executor.py` lines 229-237): the
token is embedded only when one was supplied (nonempty), decryption
succeeded, and the URL uses the `https://` scheme; every failure or
mismatch silently leaves the URL unmodified. -/
def gitUrlWithAuth (decryptTok : Except String String) (gitUrl : String)
    (tokEnc : Option String) : String :=
  match tokEnc with
  | none => gitUrl
  | some enc =>
    if enc = "" then gitUrl
    else
      match decryptTok with
      | .error _ => gitUrl
      | .ok token =>
        if startsWithHttps gitUrl then ⟨replaceHttps token gitUrl.data⟩
        else gitUrl

/-- Model of `_clone_repository` (lines 221-262): clone once at the
authenticated URL, then verify the target contains repository metadata;
all failures are wrapped into `JobExecutionError` with the diagnostic. -/
def cloneRepository (w : World) (gitUrl branch : String) (tokEnc : Option String) :
    Except JobExecutionError Unit :=
  let authUrl := gitUrlWithAuth w.decryptTok gitUrl tokEnc
  match w.cloneResult authUrl 0 with
  | .gitCommandError m =>
    .error ⟨"Failed to clone repository (GitCommandError): " ++ m⟩
  | .otherError m => .error ⟨"Failed to clone repository: " ++ m⟩
  | .ok =>
    if w.repoValid then .ok ()
    else .error ⟨"Failed to clone repository: Clone completed but repository directory is invalid"⟩

/-- Model of `_write_pipeline_file` (lines 264-280): any decode or write
failure is wrapped. -/
def writePipelineFile (w : World) : Except JobExecutionError Unit :=
  match w.writeResult with
  | .ok _ => .ok ()
  | .error e => .error ⟨"Failed to write pipeline file: " ++ e⟩

/-- Model of `_ensure_image` (lines 282-293): pull only when the image is
absent locally; a pull failure is wrapped and aborts. -/
def ensureImage (w : World) (image : String) : Except JobExecutionError Unit :=
  if w.imagePresent then .ok ()
  else
    match w.pullResult with
    | .ok _ => .ok ()
    | .error e => .error ⟨"Failed to pull image " ++ image ++ ": " ++ e⟩

/-- Insertion into an insertion-ordered string dictionary: overwrite in
place when the key exists, else append (CPython dict update semantics). -/
def dictInsert : List (String × String) → String → String → List (String × String)
  | [], k, v => [(k, v)]
  | (k1, v1) :: rest, k, v =>
    if k1 = k then (k, v) :: rest else (k1, v1) :: dictInsert rest k v

/-- Lookup in an insertion-ordered string dictionary. -/
def dictLookup : List (String × String) → String → Option String
  | [], _ => none
  | (k1, v1) :: rest, k => if k1 = k then some v1 else dictLookup rest k

/-- The `environment` dictionary passed to `containers.run` (lines
317-320): the literal `{"GRYT_WORKSPACE": "/workspace", **env_vars}`, so
the mandatory entry is inserted first and caller entries override it. -/
def buildEnvironment (envVars : List (String × String)) : List (String × String) :=
  envVars.foldl (fun d kv => dictInsert d kv.1 kv.2) [("GRYT_WORKSPACE", "/workspace")]

/-- Modelled from the spec: CPython's `float(cpu_limit)` on a plain decimal
string (optional sign, integer digits, optional `.` and fractional digits)
as an exact rational; IEEE-754 rounding of the interpreter is abstracted
to exact arithmetic. -/
def parseDecimal (s : String) : Option Rat :=
  let signSplit : Int × List Char :=
    match s.data with
    | '-' :: t => (-1, t)
    | '+' :: t => (1, t)
    | l => (1, l)
  let sign := signSplit.1
  let l1 := signSplit.2
  let ip := l1.takeWhile Char.isDigit
  match l1.dropWhile Char.isDigit with
  | [] =>
    if ip.isEmpty then none
    else some ((sign : Rat) * (digitsVal ip : Rat))
  | '.' :: fp =>
    if fp.all Char.isDigit && !(ip.isEmpty && fp.isEmpty) then
      some ((sign : Rat) *
        ((digitsVal ip : Rat) + (digitsVal fp : Rat) / (10 : Rat) ^ fp.length))
    else none
  | _ => none

/-- CPython `int()` truncation toward zero of an exact rational. -/
def ratTrunc (q : Rat) : Int := Int.tdiv q.num (q.den : Int)

/-- The `nano_cpus` keyword argument (lines 324-326): present exactly when
a nonempty CPU limit string was supplied, holding
`int(float(cpu_limit) * 1e9)`; an unparseable string raises. -/
def nanoCpusField (cpuLimit : Option String) : Except String (Option Int) :=
  match cpuLimit with
  | none => .ok none
  | some s =>
    if s = "" then .ok none
    else
      match parseDecimal s with
      | some q => .ok (some (ratTrunc (q * 1000000000)))
      | none => .error ("could not convert string to float: " ++ s)

/-- The `mem_limit` keyword argument (lines 327-328): the supplied string
passed through unchanged, present exactly when nonempty. -/
def memLimitField (memoryLimit : Option String) : Option String :=
  match memoryLimit with
  | none => none
  | some s => if s = "" then none else some s

/-- Configuration handed to `containers.run` (lines 310-342). -/
structure ContainerConfig where
  command : List String
  workingDir : String
  autoRemove : Bool
  environment : List (String × String)
  nanoCpus : Option Int
  memLimit : Option String
  deriving DecidableEq

/-- Assembly of the `containers.run` arguments from the request fields. -/
def containerConfig (envVars : List (String × String))
    (cpuLimit memoryLimit : Option String) : Except String ContainerConfig :=
  match nanoCpusField cpuLimit with
  | .error e => .error e
  | .ok n =>
    .ok { command := ["gryt", "run", "pipeline.py"],
          workingDir := "/workspace",
          autoRemove := true,
          environment := buildEnvironment envVars,
          nanoCpus := n,
          memLimit := memLimitField memoryLimit }

/-- Text of the captured `ContainerError` payload:
`e.stderr.decode('utf-8') if e.stderr else ""`. -/
def payloadText : Option String → String
  | none => ""
  | some s => s

/-- Model of `_run_in_container` (lines 295-371): build the container
configuration, run, and shape the outcome; a clean exit normalizes stdout
through `_clean_json_output`, a nonzero exit puts the captured payload in
both stdout and stderr, and a runtime-level failure raises wrapped. -/
def runInContainer (w : World) (envVars : List (String × String))
    (cpuLimit memoryLimit : Option String) : Except String RawResult :=
  match containerConfig envVars cpuLimit memoryLimit with
  | .error e => .error e
  | .ok _cfg =>
    match w.runResult with
    | .ok output =>
      .ok { success := true, exitCode := 0, stdout := cleanJsonOutput output, stderr := "" }
    | .containerError status payload =>
      .ok { success := false, exitCode := status,
            stdout := payloadText payload, stderr := payloadText payload }
    | .dockerError e => .error ("Docker execution failed: " ++ e)

/-- The hardcoded default image of `DockerJobExecutor.__init__`. -/
def defaultImage : String := "ghcr.io/epyklab/gryt/pipeline:latest"

/-- `image = docker_image or self.default_image` (line 161): Python `or`
treats `None` and the empty string as absent. -/
def chosenImage (dockerImage : Option String) : String :=
  match dockerImage with
  | none => defaultImage
  | some s => if s = "" then defaultImage else s

/-- One job request as received by `execute_job`. -/
structure Request where
  jobId : Nat
  pipelineB64 : String
  gitUrl : Option String
  gitBranch : String
  githubTokenEncrypted : Option String
  dockerImage : Option String
  envVars : List (String × String)
  cpuLimit : Option String
  memoryLimit : Option String

/-- The phases of `execute_job`'s `try` block that precede container
execution (lines 141-162): workspace creation, optional source clone,
pipeline materialization, image provisioning, in that order; the first
raised error aborts the rest, carrying `str(e)`. -/
def prepPhases (w : World) (r : Request) : Except String Unit :=
  match w.createWs with
  | .error e => .error e
  | .ok _ =>
    match (match r.gitUrl with
           | none => Except.ok ()
           | some url =>
             match cloneRepository w url r.gitBranch r.githubTokenEncrypted with
             | .ok _ => Except.ok ()
             | .error je => Except.error je.msg) with
    | .error e => .error e
    | .ok _ =>
      match writePipelineFile w with
      | .error je => .error je.msg
      | .ok _ =>
        match ensureImage w (chosenImage r.dockerImage) with
        | .error je => .error je.msg
        | .ok _ => .ok ()

/-- The whole `try` body of `execute_job`: preparation phases followed by
the container run. -/
def executeJobCore (w : World) (r : Request) : Except String RawResult :=
  match prepPhases w r with
  | .error e => .error e
  | .ok _ => runInContainer w r.envVars r.cpuLimit r.memoryLimit

/-- The synthetic failure dictionary built by `execute_job`'s `except`
handler (lines 188-202). -/
def syntheticFailure (e : String) (t0 t1 : Int) : JobResult :=
  { success := false, exitCode := -1, stdout := "", stderr := e,
    durationSeconds := t1 - t0, startedAt := t0, completedAt := t1, error := some e }

/-- Model of `execute_job` (lines 108-213).  First component: the result
dictionary returned to the caller.  Second component: whether the per-job
workspace directory still exists after return (`false` when it was never
created or when the guaranteed `finally` cleanup removed it; `true` only
when removal itself failed, which is logged and swallowed). -/
def executeJob (w : World) (r : Request) : JobResult × Bool :=
  let result :=
    match executeJobCore w r with
    | .ok raw =>
      { success := raw.success, exitCode := raw.exitCode, stdout := raw.stdout,
        stderr := raw.stderr, durationSeconds := w.endTime - w.startTime,
        startedAt := w.startTime, completedAt := w.endTime, error := none }
    | .error e => syntheticFailure e w.startTime w.endTime
  let wsExistsAfter :=
    match w.createWs with
    | .error _ => false
    | .ok _ =>
      match w.cleanupResult with
      | .ok _ => false
      | .error _ => true
  (result, wsExistsAfter)

theorem dictLookup_insert_self (d : List (String × String)) (k v : String) :
    dictLookup (dictInsert d k v) k = some v := by
  induction d with
  | nil => simp [dictInsert, dictLookup]
  | cons kv rest ih =>
    obtain ⟨k1, v1⟩ := kv
    by_cases h : k1 = k
    · simp [dictInsert, h, dictLookup]
    · simp [dictInsert, h, dictLookup, ih]

theorem dictLookup_insert_ne (d : List (String × String)) (k v k2 : String)
    (h : k ≠ k2) : dictLookup (dictInsert d k v) k2 = dictLookup d k2 := by
  induction d with
  | nil => simp [dictInsert, dictLookup, h]
  | cons kv rest ih =>
    obtain ⟨k1, v1⟩ := kv
    by_cases h1 : k1 = k
    · subst h1
      simp [dictInsert, dictLookup, h]
    · simp [dictInsert, h1, dictLookup, ih]

theorem dictLookup_eq_none (l : List (String × String)) (k : String)
    (h : k ∉ l.map Prod.fst) : dictLookup l k = none := by
  induction l with
  | nil => simp [dictLookup]
  | cons kv rest ih =>
    obtain ⟨k1, v1⟩ := kv
    simp only [List.map_cons, List.mem_cons, not_or] at h
    have hne : ¬k1 = k := fun hk => h.1 hk.symm
    simp [dictLookup, hne, ih h.2]

theorem foldl_insert_lookup (env : List (String × String)) :
    ∀ d : List (String × String), (env.map Prod.fst).Nodup → ∀ k,
      dictLookup (env.foldl (fun d kv => dictInsert d kv.1 kv.2) d) k =
        match dictLookup env k with
        | some v => some v
        | none => dictLookup d k := by
  induction env with
  | nil => intro d _ k; simp [dictLookup]
  | cons kv rest ih =>
    intro d hnd k
    obtain ⟨k1, v1⟩ := kv
    simp at hnd
    rw [List.foldl_cons, ih (dictInsert d k1 v1) hnd.2 k]
    by_cases h : k1 = k
    · subst h
      have hrest : dictLookup rest k1 = none := by
        apply dictLookup_eq_none
        simpa using hnd.1
      simp [dictLookup, hrest, dictLookup_insert_self]
    · simp [dictLookup, h, dictLookup_insert_ne d k1 v1 k h]

/-- Baseline external-world oracle for witnesses: every phase succeeds. -/
def baseWorld : World :=
  { createWs := .ok (), decryptTok := .ok "tok", cloneResult := fun _ _ => .ok,
    repoValid := true, writeResult := .ok (), imagePresent := true,
    pullResult := .ok (), runResult := .ok "output", cleanupResult := .ok (),
    startTime := 0, endTime := 5 }

/-- Baseline request for witnesses: a job with no source checkout. -/
def baseRequest : Request :=
  { jobId := 42, pipelineB64 := "cHJpbnQoJ29rJyk=", gitUrl := none, gitBranch := "main",
    githubTokenEncrypted := none, dockerImage := none, envVars := [],
    cpuLimit := none, memoryLimit := none }

/-- C1: an error raised in any phase before container execution (workspace
creation, source clone, pipeline materialization, or image provisioning)
makes `execute_job` return the synthetic failure record — `success=false`,
`exit_code=-1`, empty stdout, stderr equal to the error message, start and
end timestamps bracketing the attempt — instead of propagating the
exception to the caller. -/
theorem c1_pre_execution_failure_synthetic (w : World) (r : Request) (e : String)
    (h : prepPhases w r = .error e) (hclock : w.startTime ≤ w.endTime) :
    (executeJob w r).1 = syntheticFailure e w.startTime w.endTime ∧
    (executeJob w r).1.success = false ∧
    (executeJob w r).1.exitCode = -1 ∧
    (executeJob w r).1.stdout = "" ∧
    (executeJob w r).1.stderr = e ∧
    (executeJob w r).1.startedAt ≤ (executeJob w r).1.completedAt := by
  have hcore : executeJobCore w r = .error e := by simp [executeJobCore, h]
  simp [executeJob, hcore, syntheticFailure, hclock]

theorem c1_witness :
    prepPhases { baseWorld with createWs := .error "boom" } baseRequest = .error "boom" ∧
    ({ baseWorld with createWs := .error "boom" } : World).startTime ≤
      ({ baseWorld with createWs := .error "boom" } : World).endTime ∧
    (executeJob { baseWorld with createWs := .error "boom" } baseRequest).1 =
      syntheticFailure "boom" 0 5 :=
  ⟨rfl, by decide,
    (c1_pre_execution_failure_synthetic { baseWorld with createWs := .error "boom" }
      baseRequest "boom" rfl (by decide)).1⟩

/-- C2: the workspace-cleanup step of the `finally` block runs on every
exit path — whenever the workspace was created and the removal operation
succeeds, no workspace directory remains, and when creation itself failed
none exists either — and a cleanup failure is swallowed: the result record
`execute_job` returns is identical for every cleanup outcome. -/
theorem c2_cleanup_guaranteed_and_swallowed (w : World) (r : Request) :
    (∀ c : Except String Unit,
      (executeJob { w with cleanupResult := c } r).1 = (executeJob w r).1) ∧
    (w.cleanupResult = .ok () → (executeJob w r).2 = false) ∧
    (∀ e, w.createWs = .error e → (executeJob w r).2 = false) := by
  refine ⟨?_, ?_, ?_⟩
  · intro c
    have hcore : executeJobCore { w with cleanupResult := c } r = executeJobCore w r := rfl
    simp [executeJob, hcore]
  · intro h
    cases hcw : w.createWs with
    | error e => simp [executeJob, hcw]
    | ok u => simp [executeJob, hcw, h]
  · intro e h
    simp [executeJob, h]

theorem c2_witness :
    ((executeJob { baseWorld with cleanupResult := .error "permission denied" }
        baseRequest).1 = (executeJob baseWorld baseRequest).1) ∧
    baseWorld.cleanupResult = .ok () ∧
    (executeJob baseWorld baseRequest).2 = false :=
  ⟨(c2_cleanup_guaranteed_and_swallowed baseWorld baseRequest).1 (.error "permission denied"),
    rfl, (c2_cleanup_guaranteed_and_swallowed baseWorld baseRequest).2.1 rfl⟩

/-- C3 (amended): a container process exiting nonzero never raises to the
caller: the run returns `success=false` with the runtime-reported exit
status, and the runtime's captured error payload — the empty string when
nothing was captured — is placed in both the stdout and stderr fields, so
stderr is nonempty exactly when the captured payload is. -/
theorem c3_container_error_result (w : World) (env : List (String × String))
    (cpu mem : Option String) (cfg : ContainerConfig) (status : Int)
    (payload : Option String)
    (hcfg : containerConfig env cpu mem = .ok cfg)
    (hrun : w.runResult = .containerError status payload) :
    runInContainer w env cpu mem =
      .ok { success := false, exitCode := status,
            stdout := payloadText payload, stderr := payloadText payload } ∧
    (∀ s, payload = some s → s ≠ "" → payloadText payload ≠ "") := by
  refine ⟨by simp [runInContainer, hcfg, hrun], ?_⟩
  intro s hs hne
  simp [payloadText, hs, hne]

/-- The world of C3's counterexample: the container exits with status 2
having written nothing to stderr (docker-py then reports `e.stderr` as
empty, which `_run_in_container` turns into the empty string). -/
def quietFailureWorld : World := { baseWorld with runResult := .containerError 2 none }

theorem c3_counterexample :
    quietFailureWorld.runResult = RunOutcome.containerError 2 none ∧
    runInContainer quietFailureWorld [] none none =
      Except.ok { success := false, exitCode := 2, stdout := "", stderr := "" } :=
  ⟨rfl, rfl⟩

theorem c3_witness :
    containerConfig [] none none =
      Except.ok { command := ["gryt", "run", "pipeline.py"], workingDir := "/workspace",
                  autoRemove := true, environment := [("GRYT_WORKSPACE", "/workspace")],
                  nanoCpus := none, memLimit := none } ∧
    ({ baseWorld with runResult := .containerError 3 (some "trace") } : World).runResult =
      .containerError 3 (some "trace") ∧
    runInContainer { baseWorld with runResult := .containerError 3 (some "trace") } [] none none =
      Except.ok { success := false, exitCode := 3, stdout := "trace", stderr := "trace" } :=
  ⟨rfl, rfl,
    (c3_container_error_result { baseWorld with runResult := .containerError 3 (some "trace") }
      [] none none _ 3 (some "trace") rfl rfl).1⟩

/-- C4: for a fixed job identifier, two workspace-creation invocations
that observe distinct high-resolution clock readings produce distinct,
non-colliding workspace directory paths, because the directory name
incorporates the creation timestamp alongside the job identifier. -/
theorem c4_workspace_names_distinct (dir : String) (jobId t1 t2 : Nat) (h : t1 ≠ t2) :
    workspaceName dir jobId t1 ≠ workspaceName dir jobId t2 := by
  intro heq
  apply h
  apply natToChars_injective
  have hd : (dir ++ "/job-" ++ (⟨natToChars jobId⟩ : String) ++ "-").data ++ natToChars t1 =
      (dir ++ "/job-" ++ (⟨natToChars jobId⟩ : String) ++ "-").data ++ natToChars t2 :=
    congrArg String.data heq
  exact List.append_cancel_left hd

theorem c4_witness :
    (0 : Nat) ≠ 1 ∧
    workspaceName "/tmp/gryt-agent-jobs" 7 0 ≠ workspaceName "/tmp/gryt-agent-jobs" 7 1 :=
  ⟨by decide, c4_workspace_names_distinct "/tmp/gryt-agent-jobs" 7 0 1 (by decide)⟩

/-- C6: a supplied CPU limit string reaches the runtime as the absolute
nano-unit value, the decimal CPU count times ten to the ninth; a supplied
memory limit string is passed through to the runtime's size argument
unchanged; an absent limit produces no corresponding parameter. -/
theorem c6_resource_limits (cpu mem : String) (env : List (String × String)) (q : Rat)
    (hq : parseDecimal cpu = some q) (hden : (q * 1000000000).den = 1) (hmem : mem ≠ "") :
    containerConfig env (some cpu) (some mem) =
      .ok { command := ["gryt", "run", "pipeline.py"], workingDir := "/workspace",
            autoRemove := true, environment := buildEnvironment env,
            nanoCpus := some ((q * 1000000000).num), memLimit := some mem } ∧
    containerConfig env none none =
      .ok { command := ["gryt", "run", "pipeline.py"], workingDir := "/workspace",
            autoRemove := true, environment := buildEnvironment env,
            nanoCpus := none, memLimit := none } := by
  have hne : cpu ≠ "" := by
    intro hc
    rw [hc] at hq
    exact absurd hq (by simp [parseDecimal])
  have htr : ratTrunc (q * 1000000000) = (q * 1000000000).num := by
    simp [ratTrunc, hden]
  constructor <;>
    simp [containerConfig, nanoCpusField, hne, hq, htr, memLimitField, hmem]

theorem c6_witness :
    parseDecimal "2" = some 2 ∧
    ((2 : Rat) * 1000000000).den = 1 ∧
    ((2 : Rat) * 1000000000).num = 2000000000 ∧
    ("512m" : String) ≠ "" ∧
    containerConfig [] (some "2") (some "512m") =
      Except.ok { command := ["gryt", "run", "pipeline.py"], workingDir := "/workspace",
                  autoRemove := true, environment := buildEnvironment [],
                  nanoCpus := some (((2 : Rat) * 1000000000).num),
                  memLimit := some "512m" } := by
  have hpd : parseDecimal "2" = some 2 := by
    simp [parseDecimal, digitsVal, digitsValFrom]
  have hden : ((2 : Rat) * 1000000000).den = 1 := by norm_num
  have hnum : ((2 : Rat) * 1000000000).num = 2000000000 := by norm_num
  exact ⟨hpd, hden, hnum, by decide,
    (c6_resource_limits "2" "512m" [] 2 hpd hden (by decide)).1⟩

/-- C7: when a credential is supplied but the source URL does not use the
token-compatible `https://` scheme, the fetch proceeds with the unmodified
URL and behaves exactly as if no credential had been supplied, instead of
failing the job. -/
theorem c7_token_incompatible_scheme (w : World) (url branch tok : String)
    (hscheme : startsWithHttps url = false) (htok : tok ≠ "") :
    gitUrlWithAuth w.decryptTok url (some tok) = url ∧
    cloneRepository w url branch (some tok) = cloneRepository w url branch none := by
  have hauth : gitUrlWithAuth w.decryptTok url (some tok) = url := by
    cases w.decryptTok <;> simp [gitUrlWithAuth, htok, hscheme]
  refine ⟨hauth, ?_⟩
  simp only [cloneRepository]
  rw [hauth]
  rfl

theorem c7_witness :
    startsWithHttps "git@github.com:epyklab/x.git" = false ∧
    ("enc" : String) ≠ "" ∧
    gitUrlWithAuth baseWorld.decryptTok "git@github.com:epyklab/x.git" (some "enc") =
      "git@github.com:epyklab/x.git" :=
  ⟨by decide, by decide,
    (c7_token_incompatible_scheme baseWorld "git@github.com:epyklab/x.git" "main" "enc"
      (by decide) (by decide)).1⟩

/-- C8: a clone call that returns without error but leaves no identifiable
repository metadata is itself a fetch failure; every fetch failure — git
command error, unexpected error, or invalid tree — is wrapped into the
single `JobExecutionError` type carrying the underlying diagnostic
message; the clone is attempted exactly once (the outcome depends only on
attempt zero); and a fetch failure terminates the job as a failure
result. -/
theorem c8_fetch_verification_and_wrapping (w : World) (url branch : String)
    (tok : Option String) :
    (w.cloneResult (gitUrlWithAuth w.decryptTok url tok) 0 = .ok → w.repoValid = false →
      cloneRepository w url branch tok =
        .error ⟨"Failed to clone repository: Clone completed but repository directory is invalid"⟩) ∧
    (∀ m, w.cloneResult (gitUrlWithAuth w.decryptTok url tok) 0 = .gitCommandError m →
      cloneRepository w url branch tok =
        .error ⟨"Failed to clone repository (GitCommandError): " ++ m⟩) ∧
    (∀ m, w.cloneResult (gitUrlWithAuth w.decryptTok url tok) 0 = .otherError m →
      cloneRepository w url branch tok = .error ⟨"Failed to clone repository: " ++ m⟩) ∧
    (∀ f : String → Nat → GitOutcome, (∀ u, f u 0 = w.cloneResult u 0) →
      cloneRepository { w with cloneResult := f } url branch tok =
        cloneRepository w url branch tok) ∧
    (∀ r : Request, ∀ je : JobExecutionError, r.gitUrl = some url → r.gitBranch = branch →
      r.githubTokenEncrypted = tok → w.createWs = .ok () →
      cloneRepository w url branch tok = .error je →
      (executeJob w r).1.success = false ∧ (executeJob w r).1.exitCode = -1 ∧
        (executeJob w r).1.stderr = je.msg) := by
  refine ⟨?_, ?_, ?_, ?_, ?_⟩
  · intro hok hval
    simp [cloneRepository, hok, hval]
  · intro m hm
    simp [cloneRepository, hm]
  · intro m hm
    simp [cloneRepository, hm]
  · intro f hf
    simp [cloneRepository, hf]
  · intro r je h1 h2 h3 hws hclone
    have hprep : prepPhases w r = .error je.msg := by
      simp [prepPhases, hws, h1, h2, h3, hclone]
    have hcore : executeJobCore w r = .error je.msg := by simp [executeJobCore, hprep]
    simp [executeJob, hcore, syntheticFailure]

/-- The world of C8's witness: the clone itself reports success, but the
checkout produced no `.git` metadata. -/
def invalidTreeWorld : World := { baseWorld with repoValid := false }

theorem c8_witness :
    invalidTreeWorld.cloneResult
      (gitUrlWithAuth invalidTreeWorld.decryptTok "https://github.com/e/x.git" none) 0 =
      GitOutcome.ok ∧
    invalidTreeWorld.repoValid = false ∧
    cloneRepository invalidTreeWorld "https://github.com/e/x.git" "main" none =
      Except.error
        ⟨"Failed to clone repository: Clone completed but repository directory is invalid"⟩ :=
  ⟨rfl, rfl,
    (c8_fetch_verification_and_wrapping invalidTreeWorld "https://github.com/e/x.git"
      "main" none).1 rfl rfl⟩

/-- C9: the environment passed to the container is the mandatory
`GRYT_WORKSPACE="/workspace"` entry merged with the caller-supplied
environment map, the caller's entries taking precedence: a caller-supplied
`GRYT_WORKSPACE` overrides the mandatory value, every other caller entry
is preserved, and a name bound by neither is absent. -/
theorem c9_environment_merge (env : List (String × String))
    (hnd : (env.map Prod.fst).Nodup) :
    (∀ v, dictLookup env "GRYT_WORKSPACE" = some v →
      dictLookup (buildEnvironment env) "GRYT_WORKSPACE" = some v) ∧
    (dictLookup env "GRYT_WORKSPACE" = none →
      dictLookup (buildEnvironment env) "GRYT_WORKSPACE" = some "/workspace") ∧
    (∀ k v, dictLookup env k = some v → dictLookup (buildEnvironment env) k = some v) ∧
    (∀ k, k ≠ "GRYT_WORKSPACE" → dictLookup env k = none →
      dictLookup (buildEnvironment env) k = none) := by
  have hfold := foldl_insert_lookup env [("GRYT_WORKSPACE", "/workspace")] hnd
  refine ⟨?_, ?_, ?_, ?_⟩
  · intro v hv
    rw [buildEnvironment, hfold "GRYT_WORKSPACE", hv]
  · intro hv
    rw [buildEnvironment, hfold "GRYT_WORKSPACE", hv]
    simp [dictLookup]
  · intro k v hv
    rw [buildEnvironment, hfold k, hv]
  · intro k hk hv
    have hk2 : ¬("GRYT_WORKSPACE" = k) := fun h => hk h.symm
    rw [buildEnvironment, hfold k, hv]
    simp [dictLookup, hk2]

theorem c9_witness :
    ((([("GRYT_WORKSPACE", "custom"), ("A", "1")] : List (String × String)).map
      Prod.fst).Nodup) ∧
    dictLookup [("GRYT_WORKSPACE", "custom"), ("A", "1")] "GRYT_WORKSPACE" = some "custom" ∧
    dictLookup (buildEnvironment [("GRYT_WORKSPACE", "custom"), ("A", "1")])
      "GRYT_WORKSPACE" = some "custom" ∧
    dictLookup [("A", "1")] "GRYT_WORKSPACE" = none ∧
    dictLookup (buildEnvironment [("A", "1")]) "GRYT_WORKSPACE" = some "/workspace" :=
  ⟨by decide, rfl,
    (c9_environment_merge [("GRYT_WORKSPACE", "custom"), ("A", "1")] (by decide)).1
      "custom" rfl,
    rfl,
    (c9_environment_merge [("A", "1")] (by decide)).2.1 rfl⟩

/-- C10: when an encrypted credential is supplied but decryption fails,
the error is swallowed: the clone proceeds with the original URL, with no
embedded token, exactly as if no credential had been supplied, and the
job is not failed by the decryption error. -/
theorem c10_decrypt_failure_swallowed (w : World) (url branch tok e : String)
    (htok : tok ≠ "") (hdec : w.decryptTok = .error e) :
    gitUrlWithAuth w.decryptTok url (some tok) = url ∧
    cloneRepository w url branch (some tok) = cloneRepository w url branch none := by
  have hauth : gitUrlWithAuth w.decryptTok url (some tok) = url := by
    simp [gitUrlWithAuth, htok, hdec]
  refine ⟨hauth, ?_⟩
  simp only [cloneRepository]
  rw [hauth]
  rfl

/-- The world of C10's witness: token decryption raises. -/
def badKeyWorld : World := { baseWorld with decryptTok := .error "bad key" }

theorem c10_witness :
    ("enc" : String) ≠ "" ∧
    badKeyWorld.decryptTok = .error "bad key" ∧
    gitUrlWithAuth badKeyWorld.decryptTok "https://github.com/e/x.git" (some "enc") =
      "https://github.com/e/x.git" ∧
    cloneRepository badKeyWorld "https://github.com/e/x.git" "main" (some "enc") =
      cloneRepository badKeyWorld "https://github.com/e/x.git" "main" none :=
  ⟨by decide, rfl,
    (c10_decrypt_failure_swallowed badKeyWorld "https://github.com/e/x.git" "main"
      "enc" "bad key" (by decide) rfl).1,
    (c10_decrypt_failure_swallowed badKeyWorld "https://github.com/e/x.git" "main"
      "enc" "bad key" (by decide) rfl).2⟩

/-- C5: when the captured stdout (stripped) parses as a single well-formed
document, normalization returns its compact canonical re-serialization —
so any two captures parsing to the same document normalize identically,
and normalizing an already-normalized output is a fixed point; when it
does not parse, normalization returns the original text unchanged, so it
never fails the job. -/
theorem c5_output_normalization :
    (∀ (s : String) (j : Json), parseDoc (stripChars s.data) = some j →
      cleanJsonOutput s = ⟨dumpChars j⟩ ∧
      cleanJsonOutput (cleanJsonOutput s) = cleanJsonOutput s) ∧
    (∀ (s1 s2 : String) (j : Json), parseDoc (stripChars s1.data) = some j →
      parseDoc (stripChars s2.data) = some j →
      cleanJsonOutput s1 = cleanJsonOutput s2) ∧
    (∀ s : String, parseDoc (stripChars s.data) = none → cleanJsonOutput s = s) := by
  refine ⟨?_, ?_, ?_⟩
  · intro s j h
    have h1 : cleanJsonOutput s = ⟨dumpChars j⟩ := by simp [cleanJsonOutput, h]
    refine ⟨h1, ?_⟩
    rw [h1]
    exact cleanJsonOutput_dump j
  · intro s1 s2 j h1 h2
    simp [cleanJsonOutput, h1, h2]
  · intro s h
    simp [cleanJsonOutput, h]

theorem c5_witness :
    parseDoc (stripChars ("[ 1 ]".data)) = some (Json.arr [Json.num 1]) ∧
    cleanJsonOutput "[ 1 ]" = "[1]" ∧
    cleanJsonOutput (cleanJsonOutput "[ 1 ]") = cleanJsonOutput "[ 1 ]" ∧
    parseDoc (stripChars ("not json".data)) = none ∧
    cleanJsonOutput "not json" = "not json" := by
  have hp : parseDoc (stripChars ("[ 1 ]".data)) = some (Json.arr [Json.num 1]) := rfl
  have hn : parseDoc (stripChars ("not json".data)) = none := rfl
  have h1 := c5_output_normalization.1 "[ 1 ]" (Json.arr [Json.num 1]) hp
  have hdump : (⟨dumpChars (Json.arr [Json.num 1])⟩ : String) = "[1]" := by
    have : dumpChars (Json.arr [Json.num 1]) = ['[', '1', ']'] := by
      simp [dumpChars, dumpElems, natToChars, digitChar]
    rw [this]
  exact ⟨hp, h1.1.trans hdump, h1.2, hn,
    c5_output_normalization.2.2 "not json" hn⟩

end GrytAgent
